import Mathlib

/-!
Verification development for the portfolio single-page application
(`src/app/page.tsx`).  The two stateful cores are shallowly embedded here:

* the `TypeWriterText` typewriter effect (character-by-character typing and
  deleting over a cyclic list of strings, driven by `setTimeout` ticks and a
  pause timer held in `delayTimer.current`);
* the project-modal lifecycle (`handleProjectClick`, `handleCloseModal`, the
  `ProjectModal` keydown/scroll effect and its null-render guard).

JS strings are modelled as `List Char` where the typewriter slices them
(`substring(0, k)` becomes `List.take k`); elsewhere plain `String` is used.
Fallible JS accesses (reading `.length` of `texts[currentIndex]` when the
index is out of bounds, which throws a `TypeError`) are modelled with
`Option`: `none` marks the tick that crashes.
-/

namespace Portfolio

/-- The typewriter component state: the three `useState` cells of
`TypeWriterText` (`displayText`, `currentIndex`, `isDeleting`). -/
structure TWState where
  displayText : List Char
  currentIndex : Nat
  isDeleting : Bool
  deriving Repr, DecidableEq

/-- Runtime of one mounted `TypeWriterText` instance: the component state
together with the live timers.  `pendingTick` is true when the `setTimeout`
scheduled by the latest effect run has not yet fired; `pendingPause` is true
while the `delayBetween` timeout stored in `delayTimer.current` is pending;
`refSet` records whether `delayTimer.current` ever received a timer id (the
cleanup only calls `clearTimeout` on it when it is non-null). -/
structure TWRuntime where
  tw : TWState
  pendingTick : Bool
  pendingPause : Bool
  refSet : Bool
  deriving Repr, DecidableEq

/-- Props of `TypeWriterText` with the source's default speeds. -/
structure TypeWriterProps where
  texts : List (List Char)
  typeSpeed : Nat := 80
  deleteSpeed : Nat := 40
  delayBetween : Nat := 1800
  deriving Repr, DecidableEq

/-- Initial runtime: `displayText = ""`, `currentIndex = 0`,
`isDeleting = false`, with the first effect run's tick scheduled. -/
def initRuntime : TWRuntime :=
  { tw := { displayText := [], currentIndex := 0, isDeleting := false }
    pendingTick := true
    pendingPause := false
    refSet := false }

/-- Fire the pending timer of a `TypeWriterText` runtime.  This is the body
of the `useEffect` timeout (when the tick is pending) or of the
`delayTimer` callback (when the pause is pending), followed by the re-run
of the effect whenever a state cell changed (the re-run schedules the next
tick).  `none` models the `TypeError` thrown when `texts[currentIndex]` is
`undefined` and the callback reads `currentText.length`.  A runtime with no
pending timer has no callback to fire and is returned unchanged. -/
def fire (texts : List (List Char)) (r : TWRuntime) : Option TWRuntime :=
  if r.pendingTick then
    match texts[r.tw.currentIndex]? with
    | none => none
    | some currentText =>
      if r.tw.isDeleting = false then
        if r.tw.displayText.length < currentText.length then
          some { r with
            tw := { r.tw with
              displayText := currentText.take (r.tw.displayText.length + 1) }
            pendingTick := true }
        else
          some { r with pendingTick := false, pendingPause := true, refSet := true }
      else
        if 0 < r.tw.displayText.length then
          some { r with
            tw := { r.tw with
              displayText := r.tw.displayText.take (r.tw.displayText.length - 1) }
            pendingTick := true }
        else
          some { r with
            tw := { r.tw with
              isDeleting := false
              currentIndex := (r.tw.currentIndex + 1) % texts.length }
            pendingTick := true }
  else if r.pendingPause then
    some { r with
      tw := { r.tw with isDeleting := true }
      pendingTick := true
      pendingPause := false }
  else
    some r

/-- Delay, in milliseconds, before the currently pending timer fires: the
tick is scheduled with `isDeleting ? deleteSpeed : typeSpeed`, the pause
timer with `delayBetween`. -/
def nextDelay (cfg : TypeWriterProps) (r : TWRuntime) : Nat :=
  if r.pendingTick then
    if r.tw.isDeleting then cfg.deleteSpeed else cfg.typeSpeed
  else if r.pendingPause then cfg.delayBetween
  else 0

/-- Fire `n` successive timers (propagating the crash, if any). -/
def fireN (texts : List (List Char)) : Nat → TWRuntime → Option TWRuntime
  | 0, r => some r
  | n + 1, r => (fire texts r).bind (fireN texts n)

/-- The effect cleanup that runs on teardown: `clearTimeout(timeout)`
cancels the current effect run's tick if it is still pending, and
`if (delayTimer.current) clearTimeout(delayTimer.current)` cancels the
pause timer whenever the ref holds an id. -/
def teardown (r : TWRuntime) : TWRuntime :=
  { r with
    pendingTick := false
    pendingPause := if r.refSet then false else r.pendingPause }

/-- The `Project` record of `page.tsx` (optional fields are `Option`;
`image` is `string | null`, so a present-but-null image is `none`). -/
structure Project where
  id : Nat
  title : String
  description : String
  fullDescription : Option String := none
  technologies : List String
  features : Option (List String) := none
  challenges : Option String := none
  demoUrl : Option String := none
  githubUrl : Option String := none
  image : Option String := none
  deriving Repr, DecidableEq

/-- First entry of `featuredProjects` (used as a concrete input). -/
def project1 : Project :=
  { id := 1
    title := "Terracotta.ai"
    description := "Launching soon..."
    fullDescription := some "Optimized nutritional planning for every busy mom out there"
    technologies := ["React", "Node.js", "PostgreSQL", "Stripe", "Docker"]
    features := some ["Sign-in/roles", "Stripe webhooks", "Inventory updates"]
    challenges := some "Keeping state tidy across checkout and webhooks. Used optimistic updates and a small event log."
    demoUrl := some "https://demo.example.com"
    githubUrl := some "https://github.com/yourusername/project1"
    image := none }

/-- The modal-related state of the `Home` component: the two `useState`
cells plus the multiset of close-delay timers scheduled by
`handleCloseModal` and not yet fired.  Each entry is the remaining time,
in milliseconds, until that `setTimeout(() => setSelectedProject(null), 300)`
callback runs. -/
structure HomeState where
  selectedProject : Option Project
  isModalOpen : Bool
  pendingClears : List Nat
  deriving Repr, DecidableEq

/-- Initial `Home` state: nothing selected, modal closed, no timers. -/
def initHome : HomeState :=
  { selectedProject := none, isModalOpen := false, pendingClears := [] }

/-- `handleProjectClick`: select the project and open the modal,
synchronously.  Note that it does not cancel any pending close-delay
timer. -/
def handleProjectClick (p : Project) (s : HomeState) : HomeState :=
  { s with selectedProject := some p, isModalOpen := true }

/-- `handleCloseModal`: close the modal immediately and schedule a
`setSelectedProject(null)` 300 ms in the future. -/
def handleCloseModal (s : HomeState) : HomeState :=
  { s with isModalOpen := false, pendingClears := s.pendingClears ++ [300] }

/-- The `ProjectModal` keydown listener.  It is installed exactly while
`isOpen` is true, and calls `onClose` (= `handleCloseModal`) when the key
is Escape; with the modal closed there is no listener, so a key press
leaves the state untouched. -/
def handleKeyDown (key : String) (s : HomeState) : HomeState :=
  if s.isModalOpen then
    if key = "Escape" then handleCloseModal s else s
  else s

/-- Let `d` milliseconds elapse: every pending close-delay timer whose
remaining time is at most `d` fires (each firing sets
`selectedProject := null`); the rest keep ticking down. -/
def elapse (d : Nat) (s : HomeState) : HomeState :=
  { s with
    selectedProject :=
      if s.pendingClears.any (· ≤ d) then none else s.selectedProject
    pendingClears := (s.pendingClears.filter (fun t => d < t)).map (· - d) }

/-- External events driving the modal lifecycle. -/
inductive MEvent where
  | openEvt : Project → MEvent
  | closeEvt : MEvent
  | escEvt : MEvent
  | elapseEvt : Nat → MEvent
  deriving Repr, DecidableEq

/-- Apply one event to the `Home` state. -/
def applyEvent (s : HomeState) : MEvent → HomeState
  | MEvent.openEvt p => handleProjectClick p s
  | MEvent.closeEvt => handleCloseModal s
  | MEvent.escEvt => handleKeyDown "Escape" s
  | MEvent.elapseEvt d => elapse d s

/-- Run a sequence of events from a state. -/
def runEvents (es : List MEvent) (s : HomeState) : HomeState :=
  es.foldl applyEvent s

/-- A trace is quiescent when every `open` in it happens while no
close-delay timer is pending (the modal is never reopened during the
300 ms close transition). -/
def quiescentFrom (s : HomeState) : List MEvent → Bool
  | [] => true
  | MEvent.openEvt p :: es =>
      s.pendingClears.isEmpty && quiescentFrom (applyEvent s (MEvent.openEvt p)) es
  | e :: es => quiescentFrom (applyEvent s e) es

/-- Document-level page state seen by the `ProjectModal` effect:
`bodyOverflow` is `document.body.style.overflow`, `keydownInstalled`
records whether the modal's keydown listener is attached, and `rest`
stands for every other piece of page-level state, which the effect never
reads or writes. -/
structure PageState (α : Type) where
  bodyOverflow : String
  keydownInstalled : Bool
  rest : α
  deriving Repr, DecidableEq

/-- Body of the `ProjectModal` `useEffect` for a given `isOpen`: lock the
body overflow and attach the keydown listener exactly when open. -/
def runModalEffect (isOpen : Bool) {α : Type} (pg : PageState α) : PageState α :=
  { pg with
    bodyOverflow := if isOpen then "hidden" else "unset"
    keydownInstalled := isOpen }

/-- The effect cleanup (run before each re-run and on unmount): restore
`document.body.style.overflow` to `"unset"` and remove the keydown
listener. -/
def cleanupModalEffect {α : Type} (pg : PageState α) : PageState α :=
  { pg with bodyOverflow := "unset", keydownInstalled := false }

/-- One render-and-effect pass of `ProjectModal` with the new `isOpen`
value: React runs the previous effect's cleanup, then the effect. -/
def modalEffectPass {α : Type} (pg : PageState α) (isOpen : Bool) : PageState α :=
  runModalEffect isOpen (cleanupModalEffect pg)

/-- What the modal renders when it does render: every project field the
JSX dereferences.  `shownDescription` is
`project.fullDescription || project.description` with JS falsiness (an
empty `fullDescription` falls back to `description`); `headerImage`
reflects the `project.image ?` truthiness test, and `headerInitial` is
`project.title.charAt(0)` used when there is no image. -/
structure ModalView where
  titleId : String
  title : String
  shownDescription : String
  headerImage : Option String
  headerInitial : String
  featuresShown : List String
  challengesShown : Option String
  technologies : List String
  demoUrl : Option String
  githubUrl : Option String
  deriving Repr, DecidableEq

/-- The `ProjectModal` render function: `if (!isOpen || !project) return
null;` and otherwise the dialog built from the project's fields. -/
def renderProjectModal (project : Option Project) (isOpen : Bool) :
    Option ModalView :=
  if isOpen = false then none
  else
    match project with
    | none => none
    | some p =>
      some
        { titleId := "project-title-" ++ toString p.id
          title := p.title
          shownDescription :=
            match p.fullDescription with
            | some d => if d = "" then p.description else d
            | none => p.description
          headerImage :=
            match p.image with
            | some url => if url = "" then none else some url
            | none => none
          headerInitial := p.title.take 1
          featuresShown :=
            match p.features with
            | some fs => if 0 < fs.length then fs else []
            | none => []
          challengesShown :=
            match p.challenges with
            | some c => if c = "" then none else some c
            | none => none
          technologies := p.technologies
          demoUrl := p.demoUrl
          githubUrl := p.githubUrl }

/-- State invariant of the typewriter: the current index is in range and
`displayText` is a prefix of the current text (it equals
`texts[currentIndex].take displayText.length` and is never longer than the
full text). -/
def TWInv (texts : List (List Char)) (r : TWRuntime) : Prop :=
  ∃ t, texts[r.tw.currentIndex]? = some t ∧
    r.tw.displayText.length ≤ t.length ∧
    r.tw.displayText = t.take r.tw.displayText.length

/-- Inductive invariant of the modal lifecycle on quiescent traces: while
the modal is open, a project is selected and no close-delay timer is
pending. -/
def ModalInv (s : HomeState) : Prop :=
  s.isModalOpen = true → s.selectedProject ≠ none ∧ s.pendingClears = []

/-! ## Modal lifecycle lemmas -/

theorem modalInv_runEvents : ∀ (es : List MEvent) (s : HomeState),
    ModalInv s → quiescentFrom s es = true → ModalInv (runEvents es s) := by
  intro es
  induction es with
  | nil => intro s h _; simpa [runEvents] using h
  | cons e es ih =>
    intro s h hq
    have hrun : runEvents (e :: es) s = runEvents es (applyEvent s e) := rfl
    rw [hrun]
    cases e with
    | openEvt p =>
      have hq' : s.pendingClears.isEmpty = true ∧
          quiescentFrom (applyEvent s (MEvent.openEvt p)) es = true := by
        simpa [quiescentFrom, Bool.and_eq_true] using hq
      refine ih _ ?_ hq'.2
      intro _
      refine ⟨by simp [applyEvent, handleProjectClick], ?_⟩
      have : s.pendingClears = [] := by
        simpa [List.isEmpty_iff] using hq'.1
      simp [applyEvent, handleProjectClick, this]
    | closeEvt =>
      refine ih _ ?_ (by simpa [quiescentFrom] using hq)
      intro hopen
      simp [applyEvent, handleCloseModal] at hopen
    | escEvt =>
      refine ih _ ?_ (by simpa [quiescentFrom] using hq)
      intro hopen
      by_cases hs : s.isModalOpen = true
      · simp [applyEvent, handleKeyDown, hs, handleCloseModal] at hopen
      · have hs' : s.isModalOpen = false := by
          cases hmo : s.isModalOpen
          · rfl
          · exact absurd hmo hs
        have : applyEvent s MEvent.escEvt = s := by
          simp [applyEvent, handleKeyDown, hs']
        rw [this] at hopen ⊢
        exact h hopen
    | elapseEvt d =>
      refine ih _ ?_ (by simpa [quiescentFrom] using hq)
      intro hopen
      have hso : s.isModalOpen = true := by
        simpa [applyEvent, elapse] using hopen
      obtain ⟨hsel, hpend⟩ := h hso
      constructor
      · simpa [applyEvent, elapse, hpend] using hsel
      · simp [applyEvent, elapse, hpend]

/-- C1 (amended): on every trace of `open`/`close`/Escape/timer events in
which `open` is never called while a close-delay timer is pending, every
reachable state with `isOpen = true` has a selected project. -/
theorem modal_invariant_quiescent (es : List MEvent)
    (hq : quiescentFrom initHome es = true)
    (hopen : (runEvents es initHome).isModalOpen = true) :
    (runEvents es initHome).selectedProject ≠ none := by
  have h := modalInv_runEvents es initHome
    (by intro hmo; simp [initHome] at hmo) hq
  exact (h hopen).1

/-- Witness for `modal_invariant_quiescent` at the one-event trace
`[open project1]`. -/
theorem modal_invariant_quiescent_witness :
    quiescentFrom initHome [MEvent.openEvt project1] = true ∧
    (runEvents [MEvent.openEvt project1] initHome).isModalOpen = true ∧
    (runEvents [MEvent.openEvt project1] initHome).selectedProject ≠ none :=
  ⟨rfl, rfl, modal_invariant_quiescent [MEvent.openEvt project1] rfl rfl⟩

/-- C1 is false as stated: reopening the modal during the 300 ms close
transition leaves the stale clear-timer armed, and when it fires the state
has `isOpen = true` with `selectedProject = none`. -/
theorem modal_invariant_reopen_cex :
    (runEvents [MEvent.openEvt project1, MEvent.closeEvt,
        MEvent.openEvt project1, MEvent.elapseEvt 300] initHome).isModalOpen
      = true ∧
    (runEvents [MEvent.openEvt project1, MEvent.closeEvt,
        MEvent.openEvt project1, MEvent.elapseEvt 300] initHome).selectedProject
      = none :=
  ⟨rfl, rfl⟩

/-- C4 (amended): from any open state with no close-delay timer already
pending, `close()` clears `isOpen` synchronously, keeps `selectedProject`
readable for any elapse shorter than 300 ms, and clears it to `none` once
300 ms have elapsed. -/
theorem close_behavior_no_pending (s : HomeState)
    (_hopen : s.isModalOpen = true) (hp : s.pendingClears = []) :
    (handleCloseModal s).isModalOpen = false ∧
    (handleCloseModal s).selectedProject = s.selectedProject ∧
    (∀ d : Nat, d < 300 →
      (elapse d (handleCloseModal s)).selectedProject = s.selectedProject ∧
      (elapse d (handleCloseModal s)).isModalOpen = false) ∧
    (∀ d : Nat, 300 ≤ d →
      (elapse d (handleCloseModal s)).selectedProject = none) := by
  refine ⟨rfl, rfl, ?_, ?_⟩
  · intro d hd
    have hnot : ¬ (300 ≤ d) := by omega
    constructor
    · simp [elapse, handleCloseModal, hp, hnot]
    · simp [elapse, handleCloseModal]
  · intro d hd
    simp [elapse, handleCloseModal, hp, hd]

/-- Witness for `close_behavior_no_pending` at a concrete open state. -/
theorem close_behavior_no_pending_witness :
    (handleCloseModal
      { selectedProject := some project1, isModalOpen := true,
        pendingClears := [] }).isModalOpen = false ∧
    (elapse 100 (handleCloseModal
      { selectedProject := some project1, isModalOpen := true,
        pendingClears := [] })).selectedProject = some project1 ∧
    (elapse 300 (handleCloseModal
      { selectedProject := some project1, isModalOpen := true,
        pendingClears := [] })).selectedProject = none :=
  ⟨(close_behavior_no_pending _ rfl rfl).1,
   ((close_behavior_no_pending _ rfl rfl).2.2.1 100 (by omega)).1,
   (close_behavior_no_pending _ rfl rfl).2.2.2 300 (by omega)⟩

/-- C4 is false as stated ("holds for every state with `isOpen == true`"):
in the reachable open state produced by reopening 100 ms into a close
transition, calling `close()` and elapsing only 250 ms — less than the
300 ms close delay — already clears `selectedProject`, because the earlier
close's timer fires early. -/
theorem close_early_clear_cex :
    (250 : Nat) < 300 ∧
    (runEvents [MEvent.openEvt project1, MEvent.closeEvt, MEvent.elapseEvt 100,
        MEvent.openEvt project1] initHome).isModalOpen = true ∧
    (runEvents [MEvent.openEvt project1, MEvent.closeEvt, MEvent.elapseEvt 100,
        MEvent.openEvt project1] initHome).selectedProject = some project1 ∧
    (elapse 250 (handleCloseModal
      (runEvents [MEvent.openEvt project1, MEvent.closeEvt, MEvent.elapseEvt 100,
        MEvent.openEvt project1] initHome))).selectedProject = none :=
  ⟨by omega, rfl, rfl, rfl⟩

/-- C7: with the modal open, an Escape key press runs `handleCloseModal`
and produces exactly its end state; with the modal closed the keydown
listener is not installed and the state is untouched. -/
theorem escape_matches_close (s : HomeState) :
    (s.isModalOpen = true → handleKeyDown "Escape" s = handleCloseModal s) ∧
    (s.isModalOpen = false → handleKeyDown "Escape" s = s) := by
  constructor
  · intro h; simp [handleKeyDown, h]
  · intro h; simp [handleKeyDown, h]

/-- Witness for `escape_matches_close` at one open and one closed state. -/
theorem escape_matches_close_witness :
    handleKeyDown "Escape"
        { selectedProject := some project1, isModalOpen := true,
          pendingClears := [] } =
      handleCloseModal
        { selectedProject := some project1, isModalOpen := true,
          pendingClears := [] } ∧
    handleKeyDown "Escape" initHome = initHome :=
  ⟨(escape_matches_close _).1 rfl, (escape_matches_close _).2 rfl⟩

theorem foldl_modalEffectPass_rest {α : Type} :
    ∀ (os : List Bool) (pg : PageState α),
      (os.foldl modalEffectPass pg).rest = pg.rest := by
  intro os
  induction os with
  | nil => intro pg; rfl
  | cons o os ih =>
    intro pg
    have : (o :: os).foldl modalEffectPass pg
        = os.foldl modalEffectPass (modalEffectPass pg o) := rfl
    rw [this, ih]
    rfl

/-- C9: after any sequence of render-and-effect passes, the body scroll is
locked exactly when the last pass ran with the modal open; a pass with the
modal closed restores scrolling, teardown (the effect cleanup) restores it
from any state, and the rest of the page-level state is never touched. -/
theorem scroll_lock_iff_open {α : Type} (pg : PageState α) (os : List Bool)
    (o : Bool) :
    (((os ++ [o]).foldl modalEffectPass pg).bodyOverflow
        = if o then "hidden" else "unset") ∧
    (((os ++ [o]).foldl modalEffectPass pg).bodyOverflow = "hidden" ↔ o = true) ∧
    ((os ++ [o]).foldl modalEffectPass pg).rest = pg.rest ∧
    (cleanupModalEffect ((os ++ [o]).foldl modalEffectPass pg)).bodyOverflow
        = "unset" ∧
    (cleanupModalEffect ((os ++ [o]).foldl modalEffectPass pg)).rest = pg.rest := by
  have hsplit : (os ++ [o]).foldl modalEffectPass pg
      = modalEffectPass (os.foldl modalEffectPass pg) o := by
    rw [List.foldl_append]
    rfl
  refine ⟨?_, ?_, ?_, ?_, ?_⟩
  · rw [hsplit]; cases o <;> rfl
  · rw [hsplit]; cases o <;> simp [modalEffectPass, runModalEffect, cleanupModalEffect]
  · rw [hsplit]
    have h1 : (modalEffectPass (os.foldl modalEffectPass pg) o).rest
        = (os.foldl modalEffectPass pg).rest := rfl
    rw [h1, foldl_modalEffectPass_rest]
  · rfl
  · rw [hsplit]
    have h1 : (cleanupModalEffect (modalEffectPass (os.foldl modalEffectPass pg) o)).rest
        = (os.foldl modalEffectPass pg).rest := rfl
    rw [h1, foldl_modalEffectPass_rest]

/-- C10: the `ProjectModal` render returns `null` whenever the modal is
closed or no project is selected — in particular a state with
`isOpen = true` but no project renders as closed instead of dereferencing
missing fields (the fields are only read in the `some` branch). -/
theorem modal_renders_null_when_closed (p : Option Project) (o : Bool) :
    renderProjectModal p false = none ∧ renderProjectModal none o = none := by
  constructor
  · rfl
  · cases o <;> rfl

/-- C2: with an empty `texts` list the very first scheduled tick reads
`texts[0].length` of an out-of-bounds entry (`undefined` in JS) and
throws, instead of being a safe no-op — `none` marks the crashed tick. -/
theorem empty_texts_tick_throws : fire [] initRuntime = none := rfl

/-! ## Typewriter single-step characterizations -/

theorem fire_typing_step (texts : List (List Char)) (t : List Char) (i : Nat)
    (ht : texts[i]? = some t) (d : List Char) (hlt : d.length < t.length)
    (pp rs : Bool) :
    fire texts ⟨⟨d, i, false⟩, true, pp, rs⟩ =
      some ⟨⟨t.take (d.length + 1), i, false⟩, true, pp, rs⟩ := by
  simp [fire, ht, hlt]

theorem fire_full_step (texts : List (List Char)) (t : List Char) (i : Nat)
    (ht : texts[i]? = some t) (d : List Char) (hge : ¬ d.length < t.length)
    (pp rs : Bool) :
    fire texts ⟨⟨d, i, false⟩, true, pp, rs⟩ =
      some ⟨⟨d, i, false⟩, false, true, true⟩ := by
  simp [fire, ht, hge]

theorem fire_delete_step (texts : List (List Char)) (t : List Char) (i : Nat)
    (ht : texts[i]? = some t) (d : List Char) (hpos : 0 < d.length)
    (pp rs : Bool) :
    fire texts ⟨⟨d, i, true⟩, true, pp, rs⟩ =
      some ⟨⟨d.take (d.length - 1), i, true⟩, true, pp, rs⟩ := by
  simp [fire, ht, hpos]

theorem fire_advance_step (texts : List (List Char)) (t : List Char) (i : Nat)
    (ht : texts[i]? = some t) (pp rs : Bool) :
    fire texts ⟨⟨[], i, true⟩, true, pp, rs⟩ =
      some ⟨⟨[], (i + 1) % texts.length, false⟩, true, pp, rs⟩ := by
  simp [fire, ht]

theorem fire_pause_step (texts : List (List Char)) (d : List Char) (i : Nat)
    (del rs : Bool) :
    fire texts ⟨⟨d, i, del⟩, false, true, rs⟩ =
      some ⟨⟨d, i, true⟩, true, false, rs⟩ := rfl

theorem fire_idle (texts : List (List Char)) (tw : TWState) (rs : Bool) :
    fire texts ⟨tw, false, false, rs⟩ = some ⟨tw, false, false, rs⟩ := rfl

theorem fireN_one (texts : List (List Char)) (r : TWRuntime) :
    fireN texts 1 r = fire texts r := by
  cases h : fire texts r <;> simp [fireN, h]

theorem fireN_add (texts : List (List Char)) (m n : Nat) (r : TWRuntime) :
    fireN texts (m + n) r = (fireN texts m r).bind (fireN texts n) := by
  induction m generalizing r with
  | zero => simp [fireN]
  | succ m ih =>
    have hm : m + 1 + n = (m + n) + 1 := by omega
    rw [hm]
    cases h : fire texts r with
    | none => simp [fireN, h]
    | some r1 => simp [fireN, h, ih]

/-! ## Typewriter phase lemmas -/

theorem fireN_typing (texts : List (List Char)) (t : List Char) (i : Nat)
    (ht : texts[i]? = some t) (rs : Bool) :
    ∀ (n k : Nat), k ≤ t.length → t.length - k = n →
      fireN texts n ⟨⟨t.take k, i, false⟩, true, false, rs⟩ =
        some ⟨⟨t, i, false⟩, true, false, rs⟩ := by
  intro n
  induction n with
  | zero =>
    intro k hk h0
    have hk' : k = t.length := by omega
    subst hk'
    simp [fireN, List.take_length]
  | succ n ih =>
    intro k hk h
    have hklt : k < t.length := by omega
    have hlen : (t.take k).length = k := by
      simp [List.length_take]
      omega
    have hstep := fire_typing_step texts t i ht (t.take k)
      (by rw [hlen]; exact hklt) false rs
    rw [fireN, hstep]
    simp only [Option.some_bind]
    rw [hlen]
    exact ih (k + 1) (by omega) (by omega)

theorem fireN_deleting (texts : List (List Char)) (t : List Char) (i : Nat)
    (ht : texts[i]? = some t) (rs : Bool) :
    ∀ (n : Nat) (d : List Char), d.length = n →
      fireN texts n ⟨⟨d, i, true⟩, true, false, rs⟩ =
        some ⟨⟨[], i, true⟩, true, false, rs⟩ := by
  intro n
  induction n with
  | zero =>
    intro d hd
    have hnil : d = [] := List.length_eq_zero.mp hd
    subst hnil
    simp [fireN]
  | succ n ih =>
    intro d hd
    have hpos : 0 < d.length := by omega
    rw [fireN, fire_delete_step texts t i ht d hpos false rs]
    simp only [Option.some_bind]
    exact ih (d.take (d.length - 1)) (by simp [List.length_take]; omega)

/-- C3: from `Typing` at index `i` with empty `displayText`, one full
type + pause + delete cycle (the `2 * texts[i].length + 3` timer firings)
returns to `Typing` at index `(i + 1) % texts.length` with empty
`displayText`. -/
theorem typewriter_cycle (texts : List (List Char)) (i : Nat) (t : List Char)
    (ht : texts[i]? = some t) (rs : Bool) :
    fireN texts (2 * t.length + 3) ⟨⟨[], i, false⟩, true, false, rs⟩ =
      some ⟨⟨[], (i + 1) % texts.length, false⟩, true, false, true⟩ := by
  have hsplit : 2 * t.length + 3 = t.length + (1 + (1 + (t.length + 1))) := by
    omega
  rw [hsplit, fireN_add]
  have htyping := fireN_typing texts t i ht rs t.length 0 (by omega) (by omega)
  simp only [List.take_zero] at htyping
  rw [htyping]
  simp only [Option.some_bind]
  rw [fireN_add texts 1 (1 + (t.length + 1)), fireN_one,
    fire_full_step texts t i ht t (by omega) false rs]
  simp only [Option.some_bind]
  rw [fireN_add texts 1 (t.length + 1), fireN_one,
    fire_pause_step texts t i false true]
  simp only [Option.some_bind]
  rw [fireN_add texts t.length 1,
    fireN_deleting texts t i ht true t.length t rfl]
  simp only [Option.some_bind]
  rw [fireN_one, fire_advance_step texts t i ht false true]

/-- Witness for `typewriter_cycle`: the spec scenario `texts = ["ab"]`
runs one full cycle in 7 firings and returns to the empty display. -/
theorem typewriter_cycle_witness :
    fireN [['a', 'b']] 7
        { tw := { displayText := [], currentIndex := 0, isDeleting := false },
          pendingTick := true, pendingPause := false, refSet := false } =
      some
        { tw := { displayText := [], currentIndex := 0, isDeleting := false },
          pendingTick := true, pendingPause := false, refSet := true } :=
  typewriter_cycle [['a', 'b']] 0 ['a', 'b'] rfl false

/-- C5: when the typing tick finds `displayText` already equal to the full
current text, it schedules the pause timer; that timer is armed with
exactly `delayBetween`, and its firing is what flips the machine to
`Deleting` (same `displayText`). -/
theorem pause_lasts_delayBetween (cfg : TypeWriterProps) (i : Nat)
    (t : List Char) (ht : cfg.texts[i]? = some t) (rs : Bool) :
    fire cfg.texts ⟨⟨t, i, false⟩, true, false, rs⟩ =
      some ⟨⟨t, i, false⟩, false, true, true⟩ ∧
    nextDelay cfg ⟨⟨t, i, false⟩, false, true, true⟩ = cfg.delayBetween ∧
    fire cfg.texts ⟨⟨t, i, false⟩, false, true, true⟩ =
      some ⟨⟨t, i, true⟩, true, false, true⟩ :=
  ⟨fire_full_step cfg.texts t i ht t (by omega) false rs, rfl,
   fire_pause_step cfg.texts t i false true⟩

/-- Witness for `pause_lasts_delayBetween` on `texts = ["a"]` with the
source's default `delayBetween = 1800`. -/
theorem pause_lasts_delayBetween_witness :
    fire [['a']]
        { tw := { displayText := ['a'], currentIndex := 0, isDeleting := false },
          pendingTick := true, pendingPause := false, refSet := false } =
      some
        { tw := { displayText := ['a'], currentIndex := 0, isDeleting := false },
          pendingTick := false, pendingPause := true, refSet := true } ∧
    nextDelay { texts := [['a']] }
        { tw := { displayText := ['a'], currentIndex := 0, isDeleting := false },
          pendingTick := false, pendingPause := true, refSet := true } = 1800 ∧
    fire [['a']]
        { tw := { displayText := ['a'], currentIndex := 0, isDeleting := false },
          pendingTick := false, pendingPause := true, refSet := true } =
      some
        { tw := { displayText := ['a'], currentIndex := 0, isDeleting := true },
          pendingTick := true, pendingPause := false, refSet := true } :=
  pause_lasts_delayBetween { texts := [['a']] } 0 ['a'] rfl false

/-! ## Timer bookkeeping invariants -/

theorem fireN_preserves (texts : List (List Char)) {P : TWRuntime → Prop}
    (hstep : ∀ r r', fire texts r = some r' → P r → P r') :
    ∀ (n : Nat) (r r' : TWRuntime),
      fireN texts n r = some r' → P r → P r' := by
  intro n
  induction n with
  | zero =>
    intro r r' h hP
    have : r = r' := by simpa [fireN] using h
    exact this ▸ hP
  | succ n ih =>
    intro r r' h hP
    cases hf : fire texts r with
    | none => rw [fireN, hf] at h; simp at h
    | some r1 =>
      rw [fireN, hf] at h
      simp only [Option.some_bind] at h
      exact ih r1 r' h (hstep r r1 hf hP)

theorem fire_pause_refSet (texts : List (List Char)) :
    ∀ r r', fire texts r = some r' →
      (r.pendingPause = true → r.refSet = true) →
      (r'.pendingPause = true → r'.refSet = true) := by
  intro r r' h hinv
  rcases r with ⟨⟨d, i, del⟩, pt, pp, rf⟩
  cases pt
  · cases pp
    · rw [fire_idle] at h
      cases h
      exact hinv
    · rw [fire_pause_step] at h
      cases h
      intro hc
      simp at hc
  · cases hti : texts[i]? with
    | none =>
      simp [fire, hti] at h
    | some t =>
      cases del
      · by_cases hlt : d.length < t.length
        · rw [fire_typing_step texts t i hti d hlt pp rf] at h
          cases h
          exact hinv
        · rw [fire_full_step texts t i hti d hlt pp rf] at h
          cases h
          intro _
          rfl
      · by_cases hpos : 0 < d.length
        · rw [fire_delete_step texts t i hti d hpos pp rf] at h
          cases h
          exact hinv
        · have hnil : d = [] := by
            cases d
            · rfl
            · exact absurd (by simp) hpos
          subst hnil
          rw [fire_advance_step texts t i hti pp rf] at h
          cases h
          exact hinv

/-- C6: tearing down a mounted `TypeWriterText` at any reachable point of
any cycle cancels the pending tick timeout and the pending pause timer, so
the disposed runtime has no live timer left and firing changes nothing. -/
theorem teardown_cancels_timers (texts : List (List Char)) (n : Nat)
    (r : TWRuntime) (hr : fireN texts n initRuntime = some r) :
    (teardown r).pendingTick = false ∧
    (teardown r).pendingPause = false ∧
    fire texts (teardown r) = some (teardown r) := by
  have hinv : r.pendingPause = true → r.refSet = true :=
    fireN_preserves texts (fire_pause_refSet texts) n initRuntime r hr
      (by intro hc; simp [initRuntime] at hc)
  have hpt : (teardown r).pendingTick = false := rfl
  have hpp : (teardown r).pendingPause = false := by
    unfold teardown
    cases hrf : r.refSet
    · simp only [hrf, if_neg Bool.false_ne_true]
      cases hpp' : r.pendingPause
      · rfl
      · have := hinv hpp'
        rw [hrf] at this
        simp at this
    · simp [hrf]
  refine ⟨hpt, hpp, ?_⟩
  simp [fire, hpt, hpp]

/-- Witness for `teardown_cancels_timers` at the initial runtime. -/
theorem teardown_cancels_timers_witness :
    (teardown initRuntime).pendingTick = false ∧
    (teardown initRuntime).pendingPause = false ∧
    fire [] (teardown initRuntime) = some (teardown initRuntime) :=
  teardown_cancels_timers [] 0 initRuntime rfl

/-! ## Display-text invariant -/

theorem fire_TWInv (texts : List (List Char)) :
    ∀ r r', fire texts r = some r' → TWInv texts r → TWInv texts r' := by
  intro r r' h hinv
  rcases r with ⟨⟨d, i, del⟩, pt, pp, rf⟩
  obtain ⟨t0, ht0, hlen0, heq0⟩ := hinv
  simp only at ht0 hlen0 heq0
  cases pt
  · cases pp
    · rw [fire_idle] at h
      cases h
      exact ⟨t0, ht0, hlen0, heq0⟩
    · rw [fire_pause_step] at h
      cases h
      exact ⟨t0, ht0, hlen0, heq0⟩
  · cases hti : texts[i]? with
    | none => simp [fire, hti] at h
    | some t =>
      have htt : t0 = t := by
        rw [ht0] at hti
        exact (Option.some.injEq _ _).mp hti
      subst htt
      cases del
      · by_cases hlt : d.length < t0.length
        · rw [fire_typing_step texts t0 i hti d hlt pp rf] at h
          cases h
          refine ⟨t0, hti, ?_, ?_⟩
          · simp only [List.length_take]
            omega
          · simp only [List.length_take]
            have : min (d.length + 1) t0.length = d.length + 1 := by omega
            rw [this]
        · rw [fire_full_step texts t0 i hti d hlt pp rf] at h
          cases h
          exact ⟨t0, hti, hlen0, heq0⟩
      · by_cases hpos : 0 < d.length
        · rw [fire_delete_step texts t0 i hti d hpos pp rf] at h
          cases h
          have hgen : ∀ m, m ≤ d.length → d.take m = t0.take m := by
            intro m hm
            rw [heq0, List.take_take, min_eq_left hm]
          refine ⟨t0, hti, ?_, ?_⟩
          · simp only [List.length_take]
            omega
          · simp only [hgen (d.length - 1) (by omega), List.length_take]
            congr 1
            omega
        · have hnil : d = [] := by
            cases d
            · rfl
            · exact absurd (by simp) hpos
          subst hnil
          rw [fire_advance_step texts t0 i hti pp rf] at h
          cases h
          have hi : i < texts.length := by
            by_contra hcon
            rw [List.getElem?_eq_none (by omega)] at hti
            exact Option.noConfusion hti
          have hj : (i + 1) % texts.length < texts.length :=
            Nat.mod_lt _ (by omega)
          exact ⟨texts[(i + 1) % texts.length], List.getElem?_eq_getElem hj,
            by simp, by simp⟩

theorem fire_length_bounds (texts : List (List Char)) (r r' : TWRuntime)
    (h : fire texts r = some r') :
    (r.tw.isDeleting = false →
      r.tw.displayText.length ≤ r'.tw.displayText.length ∧
      r'.tw.displayText.length ≤ r.tw.displayText.length + 1) ∧
    (r.tw.isDeleting = true →
      r'.tw.displayText.length ≤ r.tw.displayText.length ∧
      r.tw.displayText.length ≤ r'.tw.displayText.length + 1) := by
  rcases r with ⟨⟨d, i, del⟩, pt, pp, rf⟩
  cases pt
  · cases pp
    · rw [fire_idle] at h
      cases h
      constructor <;> intro <;> omega
    · rw [fire_pause_step] at h
      cases h
      constructor <;> intro <;> constructor <;> simp
  · cases hti : texts[i]? with
    | none => simp [fire, hti] at h
    | some t =>
      cases del
      · by_cases hlt : d.length < t.length
        · rw [fire_typing_step texts t i hti d hlt pp rf] at h
          cases h
          constructor
          · intro _
            simp only [List.length_take]
            omega
          · intro hc
            simp at hc
        · rw [fire_full_step texts t i hti d hlt pp rf] at h
          cases h
          constructor <;> intro <;> constructor <;> simp
      · by_cases hpos : 0 < d.length
        · rw [fire_delete_step texts t i hti d hpos pp rf] at h
          cases h
          constructor
          · intro hc
            simp at hc
          · intro _
            simp only [List.length_take]
            omega
        · have hnil : d = [] := by
            cases d
            · rfl
            · exact absurd (by simp) hpos
          subst hnil
          rw [fire_advance_step texts t i hti pp rf] at h
          cases h
          constructor <;> intro <;> constructor <;> simp

/-- C8: every runtime reachable from the mounted initial state keeps
`displayText` a prefix of `texts[currentIndex]` (never longer than the
full text, never negative), and a single timer firing changes its length
by at most one: non-decreasing while `Typing`, non-increasing while
`Deleting`. -/
theorem typewriter_display_invariant (texts : List (List Char))
    (hne : texts ≠ []) (n : Nat) (r : TWRuntime)
    (hr : fireN texts n initRuntime = some r) :
    TWInv texts r ∧
    ∀ r', fire texts r = some r' →
      (r.tw.isDeleting = false →
        r.tw.displayText.length ≤ r'.tw.displayText.length ∧
        r'.tw.displayText.length ≤ r.tw.displayText.length + 1) ∧
      (r.tw.isDeleting = true →
        r'.tw.displayText.length ≤ r.tw.displayText.length ∧
        r.tw.displayText.length ≤ r'.tw.displayText.length + 1) := by
  constructor
  · refine fireN_preserves texts (fire_TWInv texts) n initRuntime r hr ?_
    have h0 : 0 < texts.length := List.length_pos.mpr hne
    exact ⟨texts[0], List.getElem?_eq_getElem h0, by simp [initRuntime],
      by simp [initRuntime]⟩
  · intro r' h
    exact fire_length_bounds texts r r' h

/-- Witness for `typewriter_display_invariant` on `texts = ["a"]` after
one firing (the tick that types the single character). -/
theorem typewriter_display_invariant_witness :
    TWInv [['a']]
      { tw := { displayText := ['a'], currentIndex := 0, isDeleting := false },
        pendingTick := true, pendingPause := false, refSet := false } ∧
    ({ tw := { displayText := ['a'], currentIndex := 0, isDeleting := false },
       pendingTick := true, pendingPause := false,
       refSet := false } : TWRuntime).tw.displayText.length ≤
      ({ tw := { displayText := ['a'], currentIndex := 0, isDeleting := false },
         pendingTick := false, pendingPause := true,
         refSet := true } : TWRuntime).tw.displayText.length :=
  ⟨(typewriter_display_invariant [['a']] (by simp) 1
      { tw := { displayText := ['a'], currentIndex := 0, isDeleting := false },
        pendingTick := true, pendingPause := false, refSet := false } rfl).1,
   (((typewriter_display_invariant [['a']] (by simp) 1
      { tw := { displayText := ['a'], currentIndex := 0, isDeleting := false },
        pendingTick := true, pendingPause := false, refSet := false } rfl).2
      { tw := { displayText := ['a'], currentIndex := 0, isDeleting := false },
        pendingTick := false, pendingPause := true, refSet := true } rfl).1 rfl).1⟩

end Portfolio
